import Mathlib

/-!
Shallow embedding of `yarpl/flowable/Subscriber.h` (rsocket-cpp).

The file models two layers of the source:

1. `BaseSubscriber<T>` — the generic state machine that guards the
   subscription slot (`subscription_`) with atomic load / exchange and
   dispatches into the abstract hooks `onSubscribeImpl`, `onNextImpl`,
   `onCompleteImpl`, `onErrorImpl`, `onTerminateImpl`.  The model keeps
   the slot as a `Bool` (present / absent) together with the two debug
   flags `gotOnSubscribe_` and `gotTerminating_`, and counts every hook
   dispatch and every call forwarded to the producer's `Subscription`
   (`cancel`, `request`).  `CHECK` and `DCHECK` failures abort the
   process, which the model renders as `Option.none` (assertion-enabled
   build, the configuration the design document's scenarios assume).

2. `details::Base` / `WithError` / `WithErrorAndComplete` — the batched
   auto-refill adapter over `BaseSubscriber`, with its `batch_` and
   `pending_` credit accounting and the one-to-three user callbacks.

Signals are modelled as a trace of calls into the entry points.  The
entry points update the subscription slot *before* dispatching into any
hook (`onSubscribe` stores, `onComplete`/`onError`/`cancel` exchange,
`onNext`/`request` load), and perform no slot update afterwards, so a
reentrant call issued from inside a hook observes exactly the state that
the next trace event would observe; flattening reentrant calls into
subsequent trace events therefore preserves the slot contents, every
guard decision, and all dispatch counts.  The theorems below quantify
over all traces, hence over all reentrant behaviours of the hooks.
-/

namespace Yarpl

/-- The calls a producer (or the subscriber itself, possibly reentrantly)
can make on a `BaseSubscriber`: the four `Subscriber` signal methods plus
the subscriber-side `cancel` and `request`. -/
inductive Event where
  | onSubscribe
  | onNext
  | onComplete
  | onError
  | cancel
  | request (n : Int)
deriving DecidableEq, Repr

/-- Observable state of one `BaseSubscriber`: the subscription slot, the
two debug flags, and counters for each hook dispatch and each call
forwarded to the producer's `Subscription`. -/
structure BState where
  /-- `subscription_` slot holds a subscription (identity irrelevant). -/
  slot : Bool
  /-- debug flag `gotOnSubscribe_`. -/
  gotOnSubscribe : Bool
  /-- debug flag `gotTerminating_`. -/
  gotTerminating : Bool
  /-- dispatches of `onSubscribeImpl`. -/
  nSubscribeImpl : Nat
  /-- dispatches of `onNextImpl`. -/
  nNextImpl : Nat
  /-- dispatches of `onCompleteImpl`. -/
  nCompleteImpl : Nat
  /-- dispatches of `onErrorImpl`. -/
  nErrorImpl : Nat
  /-- dispatches of `onTerminateImpl`. -/
  nTerminateImpl : Nat
  /-- calls of `sub->cancel()` forwarded to the producer. -/
  nProducerCancel : Nat
  /-- calls of `sub->request(n)` forwarded to the producer. -/
  nProducerRequest : Nat
deriving DecidableEq, Repr

/-- A fresh `BaseSubscriber`: empty slot, clear flags, no dispatches. -/
def BState.init : BState :=
  { slot := false, gotOnSubscribe := false, gotTerminating := false
    nSubscribeImpl := 0, nNextImpl := 0, nCompleteImpl := 0, nErrorImpl := 0
    nTerminateImpl := 0, nProducerCancel := 0, nProducerRequest := 0 }

/-- One entry-point call on a `BaseSubscriber`, transcribed from
`BaseSubscriber::onSubscribe/onComplete/onError/onNext/cancel/request`.
`none` models an aborted `CHECK`/`DCHECK` (assertion-enabled build). -/
def bstep (s : BState) : Event → Option BState
  | .onSubscribe =>
      -- CHECK(!yarpl::atomic_load(&subscription_));
      if s.slot then none
      -- DCHECK(!gotOnSubscribe_.exchange(true));
      else if s.gotOnSubscribe then none
      else
        -- atomic_store(&subscription_, sub); onSubscribeImpl();
        some { s with slot := true, gotOnSubscribe := true,
                      nSubscribeImpl := s.nSubscribeImpl + 1 }
  | .onNext =>
      -- DCHECK(gotOnSubscribe_.load());
      if !s.gotOnSubscribe then none
      -- if (auto sub = atomic_load(&subscription_)) onNextImpl(t);
      else if s.slot then some { s with nNextImpl := s.nNextImpl + 1 }
      else some s
  | .onComplete =>
      -- DCHECK(gotOnSubscribe_.load());
      if !s.gotOnSubscribe then none
      -- DCHECK(!gotTerminating_.exchange(true));
      else if s.gotTerminating then none
      -- if (auto sub = atomic_exchange(&subscription_, null)) ...
      else if s.slot then
        some { s with gotTerminating := true, slot := false,
                      nCompleteImpl := s.nCompleteImpl + 1,
                      nTerminateImpl := s.nTerminateImpl + 1 }
      else some { s with gotTerminating := true }
  | .onError =>
      if !s.gotOnSubscribe then none
      else if s.gotTerminating then none
      else if s.slot then
        some { s with gotTerminating := true, slot := false,
                      nErrorImpl := s.nErrorImpl + 1,
                      nTerminateImpl := s.nTerminateImpl + 1 }
      else some { s with gotTerminating := true }
  | .cancel =>
      -- if (auto sub = atomic_exchange(&subscription_, null))
      --   { sub->cancel(); onTerminateImpl(); }
      if s.slot then
        some { s with slot := false,
                      nProducerCancel := s.nProducerCancel + 1,
                      nTerminateImpl := s.nTerminateImpl + 1 }
      else some s
  | .request _ =>
      -- if (auto sub = atomic_load(&subscription_)) sub->request(n);
      if s.slot then some { s with nProducerRequest := s.nProducerRequest + 1 }
      else some s

/-- Run a trace of entry-point calls from a given state. -/
def brun (s : BState) : List Event → Option BState
  | [] => some s
  | e :: es =>
      match bstep s e with
      | some s' => brun s' es
      | none => none

/-- Run a trace on a fresh `BaseSubscriber`. -/
def brun0 (tr : List Event) : Option BState :=
  brun BState.init tr

/-- Total count of terminal dispatches: `onCompleteImpl` plus
`onErrorImpl` plus cancel-paths forwarded to the producer. -/
def terminalSum (s : BState) : Nat :=
  s.nCompleteImpl + s.nErrorImpl + s.nProducerCancel

/-- Inductive invariant of the `BaseSubscriber` state machine. -/
def BInv (s : BState) : Prop :=
  (s.slot = true → s.gotOnSubscribe = true) ∧
  (s.slot = true → terminalSum s = 0) ∧
  (s.gotOnSubscribe = false → terminalSum s = 0) ∧
  terminalSum s ≤ 1 ∧
  s.nTerminateImpl = terminalSum s

theorem binv_init : BInv BState.init := by
  simp [BInv, BState.init, terminalSum]

theorem bstep_inv {s s' : BState} {e : Event} (hinv : BInv s)
    (h : bstep s e = some s') : BInv s' := by
  obtain ⟨h1, h2, h3, h4, h5⟩ := hinv
  cases e <;> simp only [bstep] at h <;>
    (try split at h) <;> (try split at h) <;> (try split at h) <;>
    cases h <;>
    refine ⟨?_, ?_, ?_, ?_, ?_⟩ <;> simp_all [terminalSum]

theorem brun_inv {s s' : BState} {tr : List Event} (hinv : BInv s)
    (h : brun s tr = some s') : BInv s' := by
  induction tr generalizing s with
  | nil => simp [brun] at h; simpa [← h]
  | cons e es ih =>
      simp only [brun] at h
      cases hs : bstep s e with
      | none => rw [hs] at h; cases h
      | some s1 => rw [hs] at h; exact ih (bstep_inv hinv hs) h

theorem brun0_inv {s : BState} {tr : List Event} (h : brun0 tr = some s) :
    BInv s :=
  brun_inv binv_init h

theorem brun_append (s : BState) (t1 t2 : List Event) :
    brun s (t1 ++ t2) = (brun s t1).bind (fun s' => brun s' t2) := by
  induction t1 generalizing s with
  | nil => simp [brun]
  | cons e es ih =>
      simp only [List.cons_append, brun]
      cases bstep s e with
      | none => simp
      | some s1 => simp [ih s1]

/-- Claim C1: for every BaseSubscriber and every sequence of calls to the
entry points (reentrant calls included, as flattened trace events), the
dispatches of `onCompleteImpl`, `onErrorImpl` and the cancel path
(forwarding to the producer's `cancel`) number at most one in aggregate
over the whole run. -/
theorem c1_at_most_one_terminal (tr : List Event) (s : BState)
    (h : brun0 tr = some s) :
    s.nCompleteImpl + s.nErrorImpl + s.nProducerCancel ≤ 1 :=
  (brun0_inv h).2.2.2.1

theorem c1_at_most_one_terminal_witness :
    ∃ s, brun0 [Event.onSubscribe, Event.onComplete] = some s ∧
      s.nCompleteImpl + s.nErrorImpl + s.nProducerCancel ≤ 1 :=
  ⟨_, rfl, c1_at_most_one_terminal [Event.onSubscribe, Event.onComplete] _ rfl⟩

/-- Claim C2: `onTerminateImpl` is dispatched exactly once iff some
terminal path (complete, error or cancel) was taken; in particular, on
the trace subscribe–cancel–complete the late `onComplete` does not
dispatch `onCompleteImpl`, and `onTerminateImpl` fired exactly once,
from the cancel path. -/
theorem c2_terminate_fires_once (tr : List Event) (s : BState)
    (h : brun0 tr = some s) :
    (s.nTerminateImpl = 1 ↔ 1 ≤ terminalSum s) ∧
    (tr = [Event.onSubscribe, Event.cancel, Event.onComplete] →
      s.nCompleteImpl = 0 ∧ s.nErrorImpl = 0 ∧ s.nProducerCancel = 1 ∧
      s.nTerminateImpl = 1) := by
  have hinv := brun0_inv h
  refine ⟨?_, ?_⟩
  · have h4 := hinv.2.2.2.1
    have h5 := hinv.2.2.2.2
    omega
  · intro htr
    subst htr
    have hx : brun0 [Event.onSubscribe, Event.cancel, Event.onComplete] =
        some { slot := false, gotOnSubscribe := true, gotTerminating := true
               nSubscribeImpl := 1, nNextImpl := 0, nCompleteImpl := 0
               nErrorImpl := 0, nTerminateImpl := 1, nProducerCancel := 1
               nProducerRequest := 0 } := by decide
    rw [hx] at h
    cases h
    decide

theorem c2_terminate_fires_once_witness :
    ∃ s, brun0 [Event.onSubscribe, Event.cancel, Event.onComplete] = some s ∧
      (s.nTerminateImpl = 1 ↔ 1 ≤ terminalSum s) ∧
      (s.nCompleteImpl = 0 ∧ s.nErrorImpl = 0 ∧ s.nProducerCancel = 1 ∧
        s.nTerminateImpl = 1) :=
  ⟨_, rfl,
    (c2_terminate_fires_once
      [Event.onSubscribe, Event.cancel, Event.onComplete] _ rfl).1,
    (c2_terminate_fires_once
      [Event.onSubscribe, Event.cancel, Event.onComplete] _ rfl).2 rfl⟩

/-- Claim C3: an `onNext` arriving after the first terminal transition
(terminal signal or cancel emptied the subscription slot) never invokes
`onNextImpl`; the whole state, `nNextImpl` included, is unchanged. -/
theorem c3_no_signals_after_terminal (tr : List Event) (s : BState)
    (h : brun0 tr = some s) (ht : 1 ≤ terminalSum s) :
    brun0 (tr ++ [Event.onNext]) = some s := by
  have hinv := brun0_inv h
  have hslot : s.slot = false := by
    cases hs : s.slot with
    | false => rfl
    | true => have := hinv.2.1 hs; omega
  have hgot : s.gotOnSubscribe = true := by
    cases hg : s.gotOnSubscribe with
    | false => have := hinv.2.2.1 hg; omega
    | true => rfl
  unfold brun0 at h ⊢
  rw [brun_append, h]
  simp [brun, bstep, hslot, hgot]

theorem c3_no_signals_after_terminal_witness :
    ∃ s, brun0 [Event.onSubscribe, Event.onComplete] = some s ∧
      brun0 ([Event.onSubscribe, Event.onComplete] ++ [Event.onNext]) =
        some s :=
  ⟨_, rfl, c3_no_signals_after_terminal
    [Event.onSubscribe, Event.onComplete] _ rfl (by decide)⟩

/-- Claim C4: calling `cancel` any number of times, in any interleaving
with terminal signals, invokes the producer Subscription's `cancel` at
most once, and every `cancel` call once the slot is empty leaves the
state (producer included) untouched. -/
theorem c4_idempotent_cancel (tr : List Event) (s : BState)
    (h : brun0 tr = some s) :
    s.nProducerCancel ≤ 1 ∧
    (s.slot = false → brun0 (tr ++ [Event.cancel]) = some s) := by
  have hinv := brun0_inv h
  refine ⟨?_, ?_⟩
  · have h4 := hinv.2.2.2.1
    unfold terminalSum at h4
    omega
  · intro hs
    unfold brun0 at h ⊢
    rw [brun_append, h]
    simp [brun, bstep, hs]

theorem c4_idempotent_cancel_witness :
    ∃ s, brun0 [Event.onSubscribe, Event.cancel] = some s ∧
      s.nProducerCancel ≤ 1 ∧
      brun0 ([Event.onSubscribe, Event.cancel] ++ [Event.cancel]) = some s :=
  ⟨_, rfl,
    (c4_idempotent_cancel [Event.onSubscribe, Event.cancel] _ rfl).1,
    (c4_idempotent_cancel [Event.onSubscribe, Event.cancel] _ rfl).2
      (by decide)⟩

/-!
The batched auto-refill adapter `details::WithErrorAndComplete<T, ...>`
(which layers `WithError` over `Base`), instantiated at `T = int64`.
The user's `next` callback is modelled by its outcome on each value:
it returns normally, throws a value derived from `std::exception`
(caught by the adapter), or throws anything else (not caught).  The
user's `error` and `complete` callbacks are modelled as returning
normally and are counted.  C++ `int64_t` arithmetic is embedded as
`Int`; the quantities involved stay within `[-1, 2 * batch]` for the
`batch` ranges of the claims, far from wrap-around, and `batch_ / 2`
is C++ truncating division, embedded as `Int.tdiv`.
-/

/-- Outcome of one invocation of the user's `next` callback. -/
inductive NextOutcome where
  | ok
  | throwStd
  | throwOther
deriving DecidableEq, Repr

/-- Observable state of one batched adapter: the `BaseSubscriber` layer
(slot and debug flags), the credit accounting of `details::Base`
(`pending_`), and the interaction record: values handed to the user's
`next` callback, credit grants forwarded to the producer, producer
cancels, and hook/callback dispatch counts. -/
structure AdState where
  /-- `subscription_` slot of the `BaseSubscriber` layer. -/
  slot : Bool
  /-- debug flag `gotOnSubscribe_`. -/
  gotOnSubscribe : Bool
  /-- debug flag `gotTerminating_`. -/
  gotTerminating : Bool
  /-- `pending_` field of `details::Base`. -/
  pending : Int
  /-- values handed to the user's `next` callback, in order. -/
  nexts : List Int
  /-- credit grants forwarded to `sub->request`, in order. -/
  requests : List Int
  /-- calls of `sub->cancel()` forwarded to the producer. -/
  nProducerCancel : Nat
  /-- dispatches of `onTerminateImpl`. -/
  nTerminateImpl : Nat
  /-- invocations of the user's `error` callback. -/
  nErrorCb : Nat
  /-- invocations of the user's `complete` callback. -/
  nCompleteCb : Nat
deriving DecidableEq, Repr

/-- A fresh adapter, as built by `Subscriber::create(next, error,
complete, batch)`: `pending_(0)`, nothing dispatched. -/
def AdState.init : AdState :=
  { slot := false, gotOnSubscribe := false, gotTerminating := false
    pending := 0, nexts := [], requests := []
    nProducerCancel := 0, nTerminateImpl := 0, nErrorCb := 0
    nCompleteCb := 0 }

/-- The signal calls a producer can make on the adapter, plus the
subscriber-side `cancel`. -/
inductive AdEvent where
  | onSubscribe
  | onNext (v : Int)
  | onComplete
  | onError
  | cancel
deriving DecidableEq, Repr

/-- One entry-point call on a batched adapter with batch size `batch`
and `next` callback behaviour `nextCb`: the `BaseSubscriber` entry
point composed with the `details::Base` / `WithError` /
`WithErrorAndComplete` hook overrides.  The result is `none` for an
aborted `CHECK`/`DCHECK`, otherwise the new state paired with a flag
that is `true` exactly when an exception escaped the entry point
uncaught (a `next` throw not derived from `std::exception`). -/
def adStep (batch : Int) (nextCb : Int → NextOutcome) (s : AdState) :
    AdEvent → Option (AdState × Bool)
  | .onSubscribe =>
      if s.slot then none
      else if s.gotOnSubscribe then none
      else
        -- store the subscription, then Base::onSubscribeImpl():
        --   pending_ += batch_; this->request(batch_);
        -- with the slot just stored, request forwards to the producer.
        let s1 := { s with slot := true, gotOnSubscribe := true }
        let s2 := { s1 with pending := s1.pending + batch }
        some ({ s2 with requests := s2.requests ++ [batch] }, false)
  | .onNext v =>
      if !s.gotOnSubscribe then none
      else if s.slot then
        -- Base::onNextImpl(value): try { next_(value); } catch ...
        match nextCb v with
        | .ok =>
            let s1 := { s with nexts := s.nexts ++ [v] }
            -- if (--pending_ < batch_ / 2)
            let p := s1.pending - 1
            if p < Int.tdiv batch 2 then
              -- delta = batch_ - pending_; pending_ += delta;
              -- this->request(delta);
              let delta := batch - p
              some ({ s1 with pending := p + delta,
                              requests := s1.requests ++ [delta] }, false)
            else
              some ({ s1 with pending := p }, false)
        | .throwStd =>
            -- this->cancel(): the slot is present, so the exchange wins:
            -- sub->cancel(); onTerminateImpl();
            -- then onErrorImpl(ew) — WithError invokes error_(ew) — and
            -- return, skipping the pending_ decrement.
            let s1 := { s with nexts := s.nexts ++ [v] }
            let s2 := { s1 with slot := false,
                                nProducerCancel := s1.nProducerCancel + 1,
                                nTerminateImpl := s1.nTerminateImpl + 1 }
            some ({ s2 with nErrorCb := s2.nErrorCb + 1 }, false)
        | .throwOther =>
            -- catch (const std::exception&) does not match: the raised
            -- value unwinds out of onNextImpl and onNext untouched.
            some ({ s with nexts := s.nexts ++ [v] }, true)
      else some (s, false)
  | .onComplete =>
      if !s.gotOnSubscribe then none
      else if s.gotTerminating then none
      else if s.slot then
        -- exchange wins: WithErrorAndComplete::onCompleteImpl invokes
        -- complete_(), then onTerminateImpl().
        some ({ s with gotTerminating := true, slot := false,
                       nCompleteCb := s.nCompleteCb + 1,
                       nTerminateImpl := s.nTerminateImpl + 1 }, false)
      else some ({ s with gotTerminating := true }, false)
  | .onError =>
      if !s.gotOnSubscribe then none
      else if s.gotTerminating then none
      else if s.slot then
        -- exchange wins: WithError::onErrorImpl invokes error_(e),
        -- then onTerminateImpl().
        some ({ s with gotTerminating := true, slot := false,
                       nErrorCb := s.nErrorCb + 1,
                       nTerminateImpl := s.nTerminateImpl + 1 }, false)
      else some ({ s with gotTerminating := true }, false)
  | .cancel =>
      if s.slot then
        some ({ s with slot := false,
                       nProducerCancel := s.nProducerCancel + 1,
                       nTerminateImpl := s.nTerminateImpl + 1 }, false)
      else some (s, false)

/-- Run a trace of calls on the adapter.  A run ends (`none`) if an
assertion aborts or an exception escapes into the producer. -/
def adRun (batch : Int) (nextCb : Int → NextOutcome) :
    AdState → List AdEvent → Option AdState
  | s, [] => some s
  | s, e :: es =>
      match adStep batch nextCb s e with
      | some (s', false) => adRun batch nextCb s' es
      | some (_, true) => none
      | none => none

/-- Run a trace on a fresh adapter. -/
def adRun0 (batch : Int) (nextCb : Int → NextOutcome)
    (tr : List AdEvent) : Option AdState :=
  adRun batch nextCb AdState.init tr

/-- Total credit the adapter has requested minus the total number of
values the producer has delivered to it. -/
def outstanding (s : AdState) : Int :=
  s.requests.sum - s.nexts.length

/-- Producer compliance along a trace: whenever the producer delivers a
value to a subscribed, non-terminated adapter, it still has at least one
credit outstanding. -/
def compliantFrom (batch : Int) (nextCb : Int → NextOutcome) :
    AdState → List AdEvent → Bool
  | _, [] => true
  | s, e :: es =>
      (match e with
       | AdEvent.onNext _ => !s.slot || decide (1 ≤ outstanding s)
       | _ => true) &&
      (match adStep batch nextCb s e with
       | some (s', false) => compliantFrom batch nextCb s' es
       | _ => true)

/-- The always-returning `next` callback. -/
def okCb : Int → NextOutcome := fun _ => NextOutcome.ok

/-- Every credit grant the adapter has issued lies between the ceiling
of half the batch and the full batch. -/
def grantsOk (batch : Int) (s : AdState) : Prop :=
  ∀ g ∈ s.requests, (batch + 1) / 2 ≤ g ∧ g ≤ batch

/-- Inductive invariant of the batched adapter (finite positive batch,
non-throwing `next`, compliant producer): `pending_` tracks requested
minus delivered credit, stays in the half-batch window once subscribed,
and every grant issued so far is in the half-batch window. -/
def AdInv (batch : Int) (s : AdState) : Prop :=
  (s.slot = true → s.gotOnSubscribe = true) ∧
  s.pending = outstanding s ∧
  (s.gotOnSubscribe = true → batch / 2 ≤ s.pending) ∧
  (s.gotOnSubscribe = false → s.pending = 0) ∧
  s.pending ≤ batch ∧
  grantsOk batch s

theorem adinv_init {batch : Int} (hb : 0 < batch) :
    AdInv batch AdState.init := by
  refine ⟨?_, ?_, ?_, ?_, ?_, ?_⟩ <;>
    simp [AdState.init, outstanding, grantsOk] <;> omega

theorem adStep_inv {batch : Int} {nextCb : Int → NextOutcome}
    {s s' : AdState} {e : AdEvent} (hb : 0 < batch)
    (hok : ∀ v, nextCb v = NextOutcome.ok) (hinv : AdInv batch s)
    (hcomp : ∀ v, e = AdEvent.onNext v → s.slot = true →
      1 ≤ outstanding s)
    (h : adStep batch nextCb s e = some (s', false)) : AdInv batch s' := by
  have htd : Int.tdiv batch 2 = batch / 2 :=
    Int.tdiv_eq_ediv hb.le (by decide)
  obtain ⟨h1, h2, h3, h4, h5, h6⟩ := hinv
  unfold outstanding at h2
  cases e with
  | onSubscribe =>
      simp only [adStep] at h
      split at h
      · cases h
      split at h
      · cases h
      case _ hslot hgot =>
      simp only [Option.some.injEq, Prod.mk.injEq] at h
      obtain ⟨h, -⟩ := h
      subst h
      simp only [Bool.not_eq_true] at hgot
      have hp0 : s.pending = 0 := h4 hgot
      refine ⟨fun _ => rfl, ?_, fun _ => ?_, fun hff => ?_, ?_, ?_⟩
      · show s.pending + batch =
          (s.requests ++ [batch]).sum - (s.nexts.length : Int)
        rw [List.sum_append]
        simp only [List.sum_cons, List.sum_nil]
        omega
      · show batch / 2 ≤ s.pending + batch
        omega
      · exact absurd (show (true : Bool) = false from hff) (by decide)
      · show s.pending + batch ≤ batch
        omega
      · intro g hg
        have hg' : g ∈ s.requests ++ [batch] := hg
        rcases List.mem_append.mp hg' with hm | hm
        · exact h6 g hm
        · have hgd : g = batch := List.mem_singleton.mp hm
          subst hgd
          constructor <;> omega
  | onNext v =>
      have hcomp' := hcomp v rfl
      simp only [adStep, hok v] at h
      split at h
      · cases h
      split at h
      case _ hgot hslot =>
        have hout : 1 ≤ s.requests.sum - (s.nexts.length : Int) :=
          hcomp' hslot
        have hgot' : s.gotOnSubscribe = true := h1 hslot
        rw [htd] at h
        split at h
        case isTrue hlt =>
          have hlt' : s.pending - 1 < batch / 2 := hlt
          simp only [Option.some.injEq, Prod.mk.injEq] at h
          obtain ⟨h, -⟩ := h
          subst h
          refine ⟨fun _ => hgot', ?_, fun _ => ?_, fun hff => ?_, ?_, ?_⟩
          · show s.pending - 1 + (batch - (s.pending - 1)) =
              (s.requests ++ [batch - (s.pending - 1)]).sum -
                ((s.nexts ++ [v]).length : Int)
            rw [List.sum_append, List.length_append]
            simp only [List.sum_cons, List.sum_nil, List.length_cons,
              List.length_nil]
            push_cast
            omega
          · show batch / 2 ≤ s.pending - 1 + (batch - (s.pending - 1))
            omega
          · exact absurd (hgot'.symm.trans hff) (by decide)
          · show s.pending - 1 + (batch - (s.pending - 1)) ≤ batch
            omega
          · intro g hg
            have hg' : g ∈ s.requests ++ [batch - (s.pending - 1)] := hg
            rcases List.mem_append.mp hg' with hm | hm
            · exact h6 g hm
            · have hgd : g = batch - (s.pending - 1) :=
                List.mem_singleton.mp hm
              subst hgd
              constructor <;> omega
        case isFalse hge =>
          have hge' : ¬ s.pending - 1 < batch / 2 := hge
          simp only [Option.some.injEq, Prod.mk.injEq] at h
          obtain ⟨h, -⟩ := h
          subst h
          refine ⟨fun _ => hgot', ?_, fun _ => ?_, fun hff => ?_, ?_, ?_⟩
          · show s.pending - 1 =
              s.requests.sum - ((s.nexts ++ [v]).length : Int)
            rw [List.length_append]
            simp only [List.length_cons, List.length_nil]
            push_cast
            omega
          · show batch / 2 ≤ s.pending - 1
            omega
          · exact absurd (hgot'.symm.trans hff) (by decide)
          · show s.pending - 1 ≤ batch
            omega
          · intro g hg
            exact h6 g hg
      · simp only [Option.some.injEq, Prod.mk.injEq] at h
        obtain ⟨h, -⟩ := h
        subst h
        exact ⟨h1, h2, h3, h4, h5, h6⟩
  | onComplete =>
      simp only [adStep] at h
      split at h
      · cases h
      split at h
      · cases h
      split at h <;>
        (simp only [Option.some.injEq, Prod.mk.injEq] at h
         obtain ⟨h, -⟩ := h
         subst h) <;>
        exact ⟨fun hs => by simp_all, h2, fun hg => h3 hg, fun hg => h4 hg,
          h5, fun g hg => h6 g hg⟩
  | onError =>
      simp only [adStep] at h
      split at h
      · cases h
      split at h
      · cases h
      split at h <;>
        (simp only [Option.some.injEq, Prod.mk.injEq] at h
         obtain ⟨h, -⟩ := h
         subst h) <;>
        exact ⟨fun hs => by simp_all, h2, fun hg => h3 hg, fun hg => h4 hg,
          h5, fun g hg => h6 g hg⟩
  | cancel =>
      simp only [adStep] at h
      split at h <;>
        (simp only [Option.some.injEq, Prod.mk.injEq] at h
         obtain ⟨h, -⟩ := h
         subst h) <;>
        exact ⟨fun hs => by simp_all, h2, fun hg => h3 hg, fun hg => h4 hg,
          h5, fun g hg => h6 g hg⟩

theorem adRun_inv {batch : Int} {nextCb : Int → NextOutcome}
    {s s' : AdState} {tr : List AdEvent} (hb : 0 < batch)
    (hok : ∀ v, nextCb v = NextOutcome.ok) (hinv : AdInv batch s)
    (hc : compliantFrom batch nextCb s tr = true)
    (h : adRun batch nextCb s tr = some s') : AdInv batch s' := by
  induction tr generalizing s with
  | nil => simp [adRun] at h; simpa [← h]
  | cons e es ih =>
      simp only [compliantFrom, Bool.and_eq_true] at hc
      obtain ⟨hbit, hrest⟩ := hc
      simp only [adRun] at h
      cases hstep : adStep batch nextCb s e with
      | none => rw [hstep] at h; cases h
      | some p =>
          obtain ⟨s1, b⟩ := p
          rw [hstep] at h hrest
          cases b with
          | true => cases h
          | false =>
              refine ih ?_ hrest h
              refine adStep_inv hb hok ⟨?_, ?_, ?_, ?_, ?_, ?_⟩ ?_ hstep
              · exact hinv.1
              · exact hinv.2.1
              · exact hinv.2.2.1
              · exact hinv.2.2.2.1
              · exact hinv.2.2.2.2.1
              · exact hinv.2.2.2.2.2
              · intro v hv hslot
                subst hv
                simp only [hslot, Bool.not_true, Bool.false_or] at hbit
                exact of_decide_eq_true hbit

theorem adRun0_inv {batch : Int} {nextCb : Int → NextOutcome}
    {s : AdState} {tr : List AdEvent} (hb : 0 < batch)
    (hok : ∀ v, nextCb v = NextOutcome.ok)
    (hc : compliantFrom batch nextCb AdState.init tr = true)
    (h : adRun0 batch nextCb tr = some s) : AdInv batch s :=
  adRun_inv hb hok (adinv_init hb) hc h

/-- Structural invariant of the adapter, independent of the batch size
and of the `next` callback's behaviour: the slot can be present only
after subscription, and while it is present no terminal dispatch has
happened yet. -/
def AdStruct (s : AdState) : Prop :=
  (s.slot = true → s.gotOnSubscribe = true) ∧
  (s.slot = true → s.nErrorCb = 0 ∧ s.nCompleteCb = 0 ∧
    s.nTerminateImpl = 0 ∧ s.nProducerCancel = 0) ∧
  (s.gotOnSubscribe = false → s.nErrorCb = 0 ∧ s.nCompleteCb = 0 ∧
    s.nTerminateImpl = 0 ∧ s.nProducerCancel = 0)

theorem adStep_struct {batch : Int} {nextCb : Int → NextOutcome}
    {s s' : AdState} {e : AdEvent} {b : Bool} (hinv : AdStruct s)
    (h : adStep batch nextCb s e = some (s', b)) : AdStruct s' := by
  obtain ⟨h1, h2, h3⟩ := hinv
  cases e with
  | onNext v =>
      simp only [adStep] at h
      split at h
      · cases h
      split at h
      case _ hgot hslot =>
        cases hcb : nextCb v <;> simp only [hcb] at h
        · split at h <;>
            (simp only [Option.some.injEq, Prod.mk.injEq] at h
             obtain ⟨h, -⟩ := h
             subst h
             refine ⟨?_, ?_, ?_⟩ <;> intro hx <;> simp_all)
        · simp only [Option.some.injEq, Prod.mk.injEq] at h
          obtain ⟨h, -⟩ := h
          subst h
          refine ⟨?_, ?_, ?_⟩ <;> intro hx <;> simp_all
        · simp only [Option.some.injEq, Prod.mk.injEq] at h
          obtain ⟨h, -⟩ := h
          subst h
          refine ⟨?_, ?_, ?_⟩ <;> intro hx <;> simp_all
      · simp only [Option.some.injEq, Prod.mk.injEq] at h
        obtain ⟨h, -⟩ := h
        subst h
        exact ⟨h1, h2, h3⟩
  | onSubscribe =>
      simp only [adStep] at h
      split at h
      · cases h
      split at h
      · cases h
      case _ hslot hgot =>
      simp only [Option.some.injEq, Prod.mk.injEq] at h
      obtain ⟨h, -⟩ := h
      subst h
      refine ⟨?_, ?_, ?_⟩ <;> intro hx <;> simp_all
  | onComplete =>
      simp only [adStep] at h
      split at h
      · cases h
      split at h
      · cases h
      split at h <;>
        (simp only [Option.some.injEq, Prod.mk.injEq] at h
         obtain ⟨h, -⟩ := h
         subst h
         refine ⟨?_, ?_, ?_⟩ <;> intro hx <;> simp_all)
  | onError =>
      simp only [adStep] at h
      split at h
      · cases h
      split at h
      · cases h
      split at h <;>
        (simp only [Option.some.injEq, Prod.mk.injEq] at h
         obtain ⟨h, -⟩ := h
         subst h
         refine ⟨?_, ?_, ?_⟩ <;> intro hx <;> simp_all)
  | cancel =>
      simp only [adStep] at h
      split at h <;>
        (simp only [Option.some.injEq, Prod.mk.injEq] at h
         obtain ⟨h, -⟩ := h
         subst h
         refine ⟨?_, ?_, ?_⟩ <;> intro hx <;> simp_all)

theorem adStruct_init : AdStruct AdState.init := by
  refine ⟨?_, ?_, ?_⟩ <;> intro hx <;> simp_all [AdState.init]

theorem adRun_struct {batch : Int} {nextCb : Int → NextOutcome}
    {s s' : AdState} {tr : List AdEvent} (hinv : AdStruct s)
    (h : adRun batch nextCb s tr = some s') : AdStruct s' := by
  induction tr generalizing s with
  | nil => simp [adRun] at h; simpa [← h]
  | cons e es ih =>
      simp only [adRun] at h
      cases hstep : adStep batch nextCb s e with
      | none => rw [hstep] at h; cases h
      | some p =>
          obtain ⟨s1, b⟩ := p
          rw [hstep] at h
          cases b with
          | true => cases h
          | false => exact ih (adStep_struct hinv hstep) h

theorem adRun0_struct {batch : Int} {nextCb : Int → NextOutcome}
    {s : AdState} {tr : List AdEvent}
    (h : adRun0 batch nextCb tr = some s) : AdStruct s :=
  adRun_struct adStruct_init h

/-- Once the slot is empty on a subscribed adapter, one more trace event
changes nothing in the interaction record: values are dropped, terminal
signals do not dispatch, cancels do not reach the producer. -/
theorem adStep_frozen {batch : Int} {nextCb : Int → NextOutcome}
    {s s1 : AdState} {e : AdEvent} {b : Bool}
    (hs : s.slot = false) (hg : s.gotOnSubscribe = true)
    (h : adStep batch nextCb s e = some (s1, b)) :
    s1.slot = false ∧ s1.gotOnSubscribe = true ∧
    s1.nErrorCb = s.nErrorCb ∧ s1.nCompleteCb = s.nCompleteCb ∧
    s1.nTerminateImpl = s.nTerminateImpl ∧
    s1.nProducerCancel = s.nProducerCancel ∧
    s1.nexts = s.nexts ∧ s1.requests = s.requests := by
  cases e with
  | onSubscribe => simp [adStep, hs, hg] at h
  | onNext v =>
      simp [adStep, hs, hg] at h
      obtain ⟨h, -⟩ := h
      subst h
      exact ⟨hs, hg, rfl, rfl, rfl, rfl, rfl, rfl⟩
  | onComplete =>
      simp only [adStep, hs, hg, Bool.not_true, Bool.false_eq_true,
        if_false, if_true] at h
      split at h
      · cases h
      · simp only [Option.some.injEq, Prod.mk.injEq] at h
        obtain ⟨h, -⟩ := h
        subst h
        exact ⟨rfl, rfl, rfl, rfl, rfl, rfl, rfl, rfl⟩
  | onError =>
      simp only [adStep, hs, hg, Bool.not_true, Bool.false_eq_true,
        if_false, if_true] at h
      split at h
      · cases h
      · simp only [Option.some.injEq, Prod.mk.injEq] at h
        obtain ⟨h, -⟩ := h
        subst h
        exact ⟨rfl, rfl, rfl, rfl, rfl, rfl, rfl, rfl⟩
  | cancel =>
      simp [adStep, hs] at h
      obtain ⟨h, -⟩ := h
      subst h
      exact ⟨hs, hg, rfl, rfl, rfl, rfl, rfl, rfl⟩

/-- Once the slot is empty on a subscribed adapter, no later trace
changes the interaction record at all. -/
theorem adRun_frozen {batch : Int} {nextCb : Int → NextOutcome}
    {s s' : AdState} {tr : List AdEvent}
    (hs : s.slot = false) (hg : s.gotOnSubscribe = true)
    (h : adRun batch nextCb s tr = some s') :
    s'.nErrorCb = s.nErrorCb ∧ s'.nCompleteCb = s.nCompleteCb ∧
    s'.nTerminateImpl = s.nTerminateImpl ∧
    s'.nProducerCancel = s.nProducerCancel ∧
    s'.nexts = s.nexts ∧ s'.requests = s.requests := by
  induction tr generalizing s with
  | nil =>
      simp only [adRun, Option.some.injEq] at h
      subst h
      exact ⟨rfl, rfl, rfl, rfl, rfl, rfl⟩
  | cons e es ih =>
      simp only [adRun] at h
      cases hstep : adStep batch nextCb s e with
      | none => rw [hstep] at h; cases h
      | some p =>
          obtain ⟨s1, b⟩ := p
          rw [hstep] at h
          cases b with
          | true => cases h
          | false =>
              obtain ⟨f1, f2, f3, f4, f5, f6, f7, f8⟩ :=
                adStep_frozen hs hg hstep
              obtain ⟨g1, g2, g3, g4, g5, g6⟩ := ih f1 f2 h
              exact ⟨g1.trans f3, g2.trans f4, g3.trans f5, g4.trans f6,
                g5.trans f7, g6.trans f8⟩

/-- Claim C5: for a batched adapter with finite positive batch, a
producer that never outruns its credit and a `next` callback that never
throws, at every reachable point the total credit requested minus the
total values delivered equals `pending_`, with `0 ≤ pending_ ≤ batch`
always, and `batch / 2 ≤ pending_` (C++ truncating division, which on
the nonnegative operands here agrees with `/` on `Int`) once
subscribed. -/
theorem c5_credit_safety (batch : Int) (nextCb : Int → NextOutcome)
    (tr : List AdEvent) (s : AdState) (hb : 0 < batch)
    (hok : ∀ v, nextCb v = NextOutcome.ok)
    (hc : compliantFrom batch nextCb AdState.init tr = true)
    (h : adRun0 batch nextCb tr = some s) :
    s.pending = outstanding s ∧ 0 ≤ s.pending ∧ s.pending ≤ batch ∧
    (s.gotOnSubscribe = true → batch / 2 ≤ s.pending) := by
  obtain ⟨h1, h2, h3, h4, h5, h6⟩ := adRun0_inv hb hok hc h
  refine ⟨h2, ?_, h5, h3⟩
  cases hg : s.gotOnSubscribe with
  | false => have := h4 hg; omega
  | true => have := h3 hg; omega

theorem c5_credit_safety_witness :
    ∃ s, adRun0 4 okCb [AdEvent.onSubscribe, AdEvent.onNext 9] = some s ∧
      (s.pending = outstanding s ∧ 0 ≤ s.pending ∧ s.pending ≤ 4 ∧
        (s.gotOnSubscribe = true → (4 : Int) / 2 ≤ s.pending)) :=
  ⟨_, rfl, c5_credit_safety 4 okCb [AdEvent.onSubscribe, AdEvent.onNext 9]
    _ (by decide) (fun _ => rfl) (by decide) rfl⟩

/-- Claim C6: with a finite positive batch and a compliant producer,
every credit grant the adapter issues — the initial `request(batch)` and
every refill `request(batch - pending)` — is at least the ceiling of
half the batch, `(batch + 1) / 2`, and at most `batch`. -/
theorem c6_refill_bounds (batch : Int) (nextCb : Int → NextOutcome)
    (tr : List AdEvent) (s : AdState) (hb : 0 < batch)
    (hok : ∀ v, nextCb v = NextOutcome.ok)
    (hc : compliantFrom batch nextCb AdState.init tr = true)
    (h : adRun0 batch nextCb tr = some s) :
    ∀ g ∈ s.requests, (batch + 1) / 2 ≤ g ∧ g ≤ batch :=
  (adRun0_inv hb hok hc h).2.2.2.2.2

theorem c6_refill_bounds_witness :
    ∃ s, adRun0 4 okCb [AdEvent.onSubscribe, AdEvent.onNext 1,
        AdEvent.onNext 2, AdEvent.onNext 3] = some s ∧
      ∀ g ∈ s.requests, ((4 : Int) + 1) / 2 ≤ g ∧ g ≤ 4 :=
  ⟨_, rfl, c6_refill_bounds 4 okCb [AdEvent.onSubscribe, AdEvent.onNext 1,
    AdEvent.onNext 2, AdEvent.onNext 3] _ (by decide) (fun _ => rfl)
    (by decide) rfl⟩

/-- The scenario of claim C7: batch 4, producer delivers 1..5, then
completes. -/
def c7Trace : List AdEvent :=
  [AdEvent.onSubscribe, AdEvent.onNext 1, AdEvent.onNext 2,
   AdEvent.onNext 3, AdEvent.onNext 4, AdEvent.onNext 5,
   AdEvent.onComplete]

/-- Claim C7 counterexample: on the batch-4 scenario the adapter's
grants are `request(4)` then `request(3)` — the second grant passes 3,
not 2, and it is issued right after value 3 is consumed (pending fell to
1 < 2), not after value 4. -/
theorem c7_counterexample :
    ∃ s, adRun0 4 okCb c7Trace = some s ∧ s.requests = [4, 3] ∧
      s.requests ≠ [4, 2] :=
  ⟨_, rfl, rfl, by decide⟩

/-- Claim C7 amended: batch 4, producer delivers 1..5 then completes:
the user's `next` receives 1,2,3,4,5 in order, `request` is called with
4 on subscribe and with 3 right after value 3 is consumed (pending falls
4→3→2→1; 1 < 4/2 triggers a refill of delta = 4 - 1 = 3), and the
`complete` callback runs exactly once. -/
theorem c7_finite_stream :
    (∃ s, adRun0 4 okCb c7Trace = some s ∧ s.nexts = [1, 2, 3, 4, 5] ∧
      s.requests = [4, 3] ∧ s.nCompleteCb = 1 ∧ s.nErrorCb = 0 ∧
      s.nTerminateImpl = 1) ∧
    (∃ s2, adRun0 4 okCb [AdEvent.onSubscribe, AdEvent.onNext 1,
        AdEvent.onNext 2] = some s2 ∧ s2.requests = [4] ∧
      s2.pending = 2) ∧
    (∃ s3, adRun0 4 okCb [AdEvent.onSubscribe, AdEvent.onNext 1,
        AdEvent.onNext 2, AdEvent.onNext 3] = some s3 ∧
      s3.requests = [4, 3] ∧ s3.pending = 4) :=
  ⟨⟨_, rfl, rfl, rfl, rfl, rfl, rfl⟩, ⟨_, rfl, rfl, rfl⟩,
    ⟨_, rfl, rfl, rfl⟩⟩

/-- Claim C8: on a subscribed, live adapter, a `next` callback that
throws a `std::exception`-derived value makes the adapter cancel itself
(one producer `cancel`), route a wrapped error into `onErrorImpl` (the
user's `error` callback runs exactly once), fire `onTerminateImpl`
exactly once — and the `complete` callback never runs, neither now nor
on any later signal. -/
theorem c8_throwing_next (batch : Int) (nextCb : Int → NextOutcome)
    (tr : List AdEvent) (v : Int) (s : AdState)
    (hrun : adRun0 batch nextCb tr = some s)
    (hslot : s.slot = true)
    (hth : nextCb v = NextOutcome.throwStd) :
    ∃ s1, adStep batch nextCb s (AdEvent.onNext v) = some (s1, false) ∧
      s1.slot = false ∧ s1.pending = s.pending ∧
      s1.nProducerCancel = 1 ∧ s1.nErrorCb = 1 ∧
      s1.nTerminateImpl = 1 ∧ s1.nCompleteCb = 0 ∧
      (∀ rest s2, adRun batch nextCb s1 rest = some s2 →
        s2.nProducerCancel = 1 ∧ s2.nErrorCb = 1 ∧
        s2.nTerminateImpl = 1 ∧ s2.nCompleteCb = 0) := by
  obtain ⟨h1, h2, h3⟩ := adRun0_struct hrun
  have hgot : s.gotOnSubscribe = true := h1 hslot
  obtain ⟨z1, z2, z3, z4⟩ := h2 hslot
  refine ⟨{ s with nexts := s.nexts ++ [v], slot := false,
                   nProducerCancel := s.nProducerCancel + 1,
                   nTerminateImpl := s.nTerminateImpl + 1,
                   nErrorCb := s.nErrorCb + 1 },
    ?_, rfl, rfl, ?_, ?_, ?_, ?_, ?_⟩
  · simp [adStep, hth, hgot, hslot]
  · show s.nProducerCancel + 1 = 1
    omega
  · show s.nErrorCb + 1 = 1
    omega
  · show s.nTerminateImpl + 1 = 1
    omega
  · exact z2
  · intro rest s2 hr
    obtain ⟨g1, g2, g3, g4, -, -⟩ := adRun_frozen (by rfl) (by exact hgot) hr
    refine ⟨?_, ?_, ?_, ?_⟩
    · rw [g4]
      show s.nProducerCancel + 1 = 1
      omega
    · rw [g1]
      show s.nErrorCb + 1 = 1
      omega
    · rw [g3]
      show s.nTerminateImpl + 1 = 1
      omega
    · rw [g2]
      exact z2

theorem c8_throwing_next_witness :
    ∃ s s1, adRun0 1 (fun _ => NextOutcome.throwStd)
        [AdEvent.onSubscribe] = some s ∧
      adStep 1 (fun _ => NextOutcome.throwStd) s (AdEvent.onNext 42) =
        some (s1, false) ∧
      s1.nProducerCancel = 1 ∧ s1.nErrorCb = 1 ∧ s1.nTerminateImpl = 1 ∧
      s1.nCompleteCb = 0 := by
  obtain ⟨s1, hstep, -, -, hq1, hq2, hq3, hq4, -⟩ :=
    c8_throwing_next 1 (fun _ => NextOutcome.throwStd)
      [AdEvent.onSubscribe] 42 _ rfl rfl rfl
  exact ⟨_, s1, rfl, hstep, hq1, hq2, hq3, hq4⟩

/-- Claim C10: on a subscribed, live adapter, a `next` callback that
throws a value not derived from `std::exception` escapes the
`catch (const std::exception&)` clause: the exception unwinds out of
`onNext` (the `true` flag), with no self-cancel, no error callback, no
`onTerminateImpl`, no `pending_` decrement, and the slot still held. -/
theorem c10_uncaught_escape (batch : Int) (nextCb : Int → NextOutcome)
    (tr : List AdEvent) (v : Int) (s : AdState)
    (hrun : adRun0 batch nextCb tr = some s)
    (hslot : s.slot = true)
    (hth : nextCb v = NextOutcome.throwOther) :
    ∃ s1, adStep batch nextCb s (AdEvent.onNext v) = some (s1, true) ∧
      s1.pending = s.pending ∧
      s1.nProducerCancel = s.nProducerCancel ∧
      s1.nErrorCb = s.nErrorCb ∧
      s1.nTerminateImpl = s.nTerminateImpl ∧
      s1.slot = s.slot ∧
      s1.nexts = s.nexts ++ [v] := by
  have hgot : s.gotOnSubscribe = true := (adRun0_struct hrun).1 hslot
  refine ⟨{ s with nexts := s.nexts ++ [v] }, ?_, rfl, rfl, rfl, rfl,
    rfl, rfl⟩
  simp [adStep, hth, hgot, hslot]

theorem c10_uncaught_escape_witness :
    ∃ s s1, adRun0 1 (fun _ => NextOutcome.throwOther)
        [AdEvent.onSubscribe] = some s ∧
      adStep 1 (fun _ => NextOutcome.throwOther) s (AdEvent.onNext 5) =
        some (s1, true) ∧
      s1.pending = s.pending ∧ s1.nProducerCancel = s.nProducerCancel ∧
      s1.nErrorCb = s.nErrorCb := by
  obtain ⟨s1, hstep, hp, hc, he, -, -, -⟩ :=
    c10_uncaught_escape 1 (fun _ => NextOutcome.throwOther)
      [AdEvent.onSubscribe] 5 _ rfl rfl rfl
  exact ⟨_, s1, rfl, hstep, hp, hc, he⟩

/-!
The zero-argument factory `Subscriber<T>::create()` returns the local
class `NullSubscriber`, which derives from `Subscriber<T>` directly —
not from `BaseSubscriber` — so it has no subscription slot, no hook set
and in particular no `onTerminateImpl` anywhere in its hierarchy.  Its
`onSubscribe(s)` calls `s->request(credits::kNoFlowControl)` and its
`onNext`/`onComplete`/`onError` bodies are empty.
-/

/-- Modelled from the spec: `credits::kNoFlowControl` — the sentinel
credit value meaning "no flow control", described as a specific large
value that saturates under addition, i.e. the `int64` maximum
(`yarpl/utils/credits.h` is not among the sources at hand). -/
def kNoFlowControl : Int := 9223372036854775807

/-- Observable state of a `NullSubscriber` interaction: credit grants
forwarded to the producer, number of (discarded) values received, and a
count of `onTerminateImpl` dispatches — which no transition can ever
increment, because `Subscriber` (unlike `BaseSubscriber`) has no such
hook and `NullSubscriber` derives from `Subscriber` directly. -/
structure NsState where
  /-- calls of `s->request(n)` forwarded to the producer, in order. -/
  requests : List Int
  /-- `onNext` calls; the body is empty, each value is discarded. -/
  nReceived : Nat
  /-- `onTerminateImpl` dispatches; there is no such hook here. -/
  nTerminateImpl : Nat
deriving DecidableEq, Repr

/-- A fresh `NullSubscriber`. -/
def NsState.init : NsState :=
  { requests := [], nReceived := 0, nTerminateImpl := 0 }

/-- The signal calls a producer can make on a `NullSubscriber`. -/
inductive NsEvent where
  | onSubscribe
  | onNext (v : Int)
  | onComplete
  | onError
deriving DecidableEq, Repr

/-- One signal on a `NullSubscriber`: `onSubscribe` requests the
unbounded sentinel, everything else is an empty body. -/
def nsStep (s : NsState) : NsEvent → NsState
  | .onSubscribe => { s with requests := s.requests ++ [kNoFlowControl] }
  | .onNext _ => { s with nReceived := s.nReceived + 1 }
  | .onComplete => s
  | .onError => s

/-- Run a trace of signals on a `NullSubscriber`. -/
def nsRun : NsState → List NsEvent → NsState
  | s, [] => s
  | s, e :: es => nsRun (nsStep s e) es

theorem nsRun_cons (s : NsState) (e : NsEvent) (t : List NsEvent) :
    nsRun s (e :: t) = nsRun (nsStep s e) t :=
  rfl

theorem nsRun_append (s : NsState) (t1 t2 : List NsEvent) :
    nsRun s (t1 ++ t2) = nsRun (nsRun s t1) t2 := by
  induction t1 generalizing s with
  | nil => rfl
  | cons e es ih => exact ih (nsStep s e)

theorem nsRun_replicate (s : NsState) (n : Nat) (v : Int) :
    nsRun s (List.replicate n (NsEvent.onNext v)) =
      { s with nReceived := s.nReceived + n } := by
  induction n generalizing s with
  | zero => rfl
  | succ n ih =>
      rw [List.replicate_succ]
      show nsRun { s with nReceived := s.nReceived + 1 }
        (List.replicate n (NsEvent.onNext v)) = _
      rw [ih]
      have harith : s.nReceived + 1 + n = s.nReceived + (n + 1) := by omega
      show ({ s with nReceived := s.nReceived + 1 + n } : NsState) = _
      rw [harith]

/-- Claim C9 counterexample: on the null subscriber built by the
zero-argument factory, a producer delivering 1000 values and then
completing triggers no `onTerminateImpl` at all — the class derives from
`Subscriber`, which has no such hook, and its `onComplete` body is
empty — contradicting the claim that it fires exactly once. -/
theorem c9_counterexample :
    (nsRun NsState.init (NsEvent.onSubscribe ::
        (List.replicate 1000 (NsEvent.onNext 0) ++
          [NsEvent.onComplete]))).nTerminateImpl = 0 ∧
    (nsRun NsState.init (NsEvent.onSubscribe ::
        (List.replicate 1000 (NsEvent.onNext 0) ++
          [NsEvent.onComplete]))).nTerminateImpl ≠ 1 := by
  rw [nsRun_cons, nsRun_append, nsRun_replicate]
  constructor <;> simp [nsRun, nsStep, NsState.init]

/-- Claim C9 amended: for any number of delivered values, the null
subscriber issues exactly one `request(kNoFlowControl)` (on subscribe)
and no further request, discards every value, and completion dispatches
nothing — it has no `onTerminateImpl`, so that hook fires zero times. -/
theorem c9_unbounded_null (n : Nat) :
    nsRun NsState.init (NsEvent.onSubscribe ::
        (List.replicate n (NsEvent.onNext 0) ++ [NsEvent.onComplete])) =
      { requests := [kNoFlowControl], nReceived := n,
        nTerminateImpl := 0 } := by
  rw [nsRun_cons, nsRun_append, nsRun_replicate]
  simp [nsRun, nsStep, NsState.init]

theorem c9_unbounded_null_witness :
    nsRun NsState.init (NsEvent.onSubscribe ::
        (List.replicate 1000 (NsEvent.onNext 0) ++ [NsEvent.onComplete])) =
      { requests := [kNoFlowControl], nReceived := 1000,
        nTerminateImpl := 0 } :=
  c9_unbounded_null 1000

end Yarpl
